import Mathlib

/-!
# Verification of the rustytracer core (shallow embedding)

This file embeds the core of the `rustytracer` ray tracer in Lean 4 and
proves properties stated in its specification.

Modelling conventions:

* Rust `f64` values are modelled as exact rationals (`ℚ`).  The three
  transcendental primitives used by the code (`f64::sqrt`, `f64::tan`,
  `f64::powf`) are passed as explicit function parameters `sqrtF`,
  `tanF`, `powF : ℚ → ℚ`; theorems constrain them only by the facts the
  claim needs (e.g. `0 ≤ sqrtF d`).  Note that in `ℚ` division by zero
  yields `0`, where IEEE arithmetic yields `±inf`/NaN; the spots where
  this matters are called out in comments.
* A Rust `assert!` that can fire (a panic) is modelled by returning
  `Except.error` from the corresponding function; `debug_assert!`s are
  compiled out in release builds and are not modelled.
* `Vec::sort_unstable_by` guarantees only that its output is an
  ascending reordering of its input; the embedding uses
  `List.insertionSort`, which satisfies that contract (tie order of the
  real unstable sort is not modelled).
-/

namespace RT

/-- Error kinds named by the specification (§7).  Rust signals them as
panics (`assert!`). -/
inductive RtError
  | invalidDimension
  | notInvertible
  | degenerateVector
  deriving DecidableEq, Repr

/-- `util::EPSILON` from `src/util.rs`. -/
def EPSILON : ℚ := 1 / 100000

/-- `util::nearly_equal` from `src/util.rs`: `(a - b).abs() < EPSILON`. -/
def nearlyEqual (a b : ℚ) : Bool := |a - b| < EPSILON

/-- `Tuple` from `src/tuple.rs`: a quadruplet `[x, y, z, w]`. -/
structure Tuple where
  x : ℚ
  y : ℚ
  z : ℚ
  w : ℚ
  deriving DecidableEq, Repr

namespace Tuple

/-- `Tuple::new`. -/
def new (x y z w : ℚ) : Tuple := ⟨x, y, z, w⟩

/-- `Tuple::new_point` (w = 1). -/
def newPoint (x y z : ℚ) : Tuple := ⟨x, y, z, 1⟩

/-- `Tuple::new_vector` (w = 0). -/
def newVector (x y z : ℚ) : Tuple := ⟨x, y, z, 0⟩

/-- `Tuple::new_zero`. -/
def newZero : Tuple := ⟨0, 0, 0, 0⟩

/-- `Tuple::get` (indices 0..3; out-of-range indices would panic in Rust
and are never used by the embedded code). -/
def get (t : Tuple) : ℕ → ℚ
  | 0 => t.x
  | 1 => t.y
  | 2 => t.z
  | 3 => t.w
  | _ + 4 => 0

/-- `Tuple::set` (indices 0..3).  An out-of-range index panics in Rust
(`xyzw[i]` on a `[f64; 4]`) — reachable through `Matrix * Tuple` on a
matrix with more than 4 rows — but is the identity here; that
unmodelled panic path is kept outside every theorem's scope. -/
def set (t : Tuple) (i : ℕ) (v : ℚ) : Tuple :=
  match i with
  | 0 => { t with x := v }
  | 1 => { t with y := v }
  | 2 => { t with z := v }
  | 3 => { t with w := v }
  | _ + 4 => t

/-- `impl Add for &Tuple`. -/
def add (a b : Tuple) : Tuple := ⟨a.x + b.x, a.y + b.y, a.z + b.z, a.w + b.w⟩

/-- `impl Sub for &Tuple`. -/
def sub (a b : Tuple) : Tuple := ⟨a.x - b.x, a.y - b.y, a.z - b.z, a.w - b.w⟩

/-- `impl Neg for &Tuple`. -/
def neg (a : Tuple) : Tuple := ⟨-a.x, -a.y, -a.z, -a.w⟩

/-- `impl Mul<f64> for &Tuple`. -/
def smul (a : Tuple) (k : ℚ) : Tuple := ⟨a.x * k, a.y * k, a.z * k, a.w * k⟩

/-- `Tuple::dot`: `Σ_i xyzw[i] * other.xyzw[i]`. -/
def dot (a b : Tuple) : ℚ := a.x * b.x + a.y * b.y + a.z * b.z + a.w * b.w

/-- `Tuple::magnitude`: the square root of the sum of the squares of all
four components.  `sqrtF` models `f64::sqrt`. -/
def magnitude (sqrtF : ℚ → ℚ) (t : Tuple) : ℚ :=
  sqrtF (t.x * t.x + t.y * t.y + t.z * t.z + t.w * t.w)

/-- `Tuple::normalized`: divides every component by the magnitude,
unconditionally — the source has no zero-magnitude check. -/
def normalized (sqrtF : ℚ → ℚ) (t : Tuple) : Tuple :=
  let m := t.magnitude sqrtF
  ⟨t.x / m, t.y / m, t.z / m, t.w / m⟩

/-- Follows the spec's words (§7): the variant of `normalized` the
specification describes, failing with `DegenerateVector` on a
zero-magnitude vector.  Used only to contrast with the source's
`normalized` above. -/
def normalizedSpec (sqrtF : ℚ → ℚ) (t : Tuple) : Except RtError Tuple :=
  if t.magnitude sqrtF = 0 then .error .degenerateVector
  else .ok (t.normalized sqrtF)

/-- `impl PartialEq for Tuple`: componentwise `nearly_equal`. -/
def eqApprox (a b : Tuple) : Bool :=
  nearlyEqual a.x b.x && nearlyEqual a.y b.y && nearlyEqual a.z b.z &&
    nearlyEqual a.w b.w

/-- Modelled from the spec: `Tuple::reflected` is called by `lighting`
(`src/light.rs`) but its definition is missing from `src/`; this is the
standard Phong reflection `v − n·2·dot(v,n)` the spec's `reflect`
refers to (§4.6). -/
def reflected (v n : Tuple) : Tuple := v.sub (n.smul (2 * v.dot n))

end Tuple

/-- `tuple::ORIGIN`. -/
def ORIGIN : Tuple := ⟨0, 0, 0, 1⟩

/-- `Color` from `src/color.rs`. -/
structure Color where
  r : ℚ
  g : ℚ
  b : ℚ
  deriving DecidableEq, Repr

namespace Color

/-- `impl Add for &Color`. -/
def add (a b : Color) : Color := ⟨a.r + b.r, a.g + b.g, a.b + b.b⟩

/-- `impl Mul<f64> for &Color`. -/
def smul (a : Color) (k : ℚ) : Color := ⟨a.r * k, a.g * k, a.b * k⟩

/-- `impl Mul for &Color` (componentwise Hadamard product). -/
def mul (a b : Color) : Color := ⟨a.r * b.r, a.g * b.g, a.b * b.b⟩

end Color

/-- `color::BLACK`. -/
def BLACK : Color := ⟨0, 0, 0⟩

/-- `color::WHITE`. -/
def WHITE : Color := ⟨1, 1, 1⟩

/-- `Material` from `src/light.rs`. -/
structure Material where
  color : Color
  ambient : ℚ
  diffuse : ℚ
  specular : ℚ
  shininess : ℚ
  deriving DecidableEq, Repr

/-- `Material::default()`. -/
def Material.default : Material := ⟨WHITE, 1/10, 9/10, 9/10, 200⟩

/-- `PointLight` from `src/light.rs`. -/
structure PointLight where
  intensity : Color
  position : Tuple
  deriving DecidableEq, Repr

/-- `PointStatus`: referenced by `src/world.rs` and the integration
tests but missing from `src/light.rs` as given; modelled from the spec
(§4.6: "a precomputed shadow status (InLight/InShadow)"). -/
inductive PointStatus
  | inLight
  | inShadow
  deriving DecidableEq, Repr

/-- `light::lighting`.  The body follows `src/light.rs` (effective
color, light vector and ambient term computed first, then the diffuse
and specular terms guarded by `light_dot_normal >= 0.0` and
`reflect_dot_eye >= 0.0`; `diffuse`/`specular` default to black).
Modelled from the spec: the shadow-status parameter and the early
`if status == InShadow: return ambient` (§4.6) are present in the
callers (`World::shade_hit`, the integration tests) but missing from
`src/light.rs` as given.  `powF` models `f64::powf`. -/
def lighting (sqrtF : ℚ → ℚ) (powF : ℚ → ℚ → ℚ) (m : Material)
    (light : PointLight) (pt eyeVec normalVec : Tuple)
    (status : PointStatus) : Color :=
  let effectiveColor := m.color.mul light.intensity
  let lightVec := (light.position.sub pt).normalized sqrtF
  let ambient := effectiveColor.smul m.ambient
  match status with
  | .inShadow => ambient
  | .inLight =>
    let lightDotNormal := lightVec.dot normalVec
    let diffuse :=
      if 0 ≤ lightDotNormal then effectiveColor.smul (m.diffuse * lightDotNormal)
      else BLACK
    let specular :=
      if 0 ≤ lightDotNormal then
        let reflectVec := Tuple.reflected lightVec.neg normalVec
        let reflectDotEye := reflectVec.dot eyeVec
        if 0 ≤ reflectDotEye then
          let factor := powF reflectDotEye m.shininess
          light.intensity.smul (m.specular * factor)
        else BLACK
      else BLACK
    (ambient.add diffuse).add specular

/-- `Matrix` from `src/matrix.rs`: row/column counts and a flat cell
vector. -/
structure Matrix where
  nrows : ℕ
  ncols : ℕ
  cells : List ℚ
  deriving DecidableEq, Repr

namespace Matrix

/-- `Matrix::new`: a zero matrix. -/
def new (nrows ncols : ℕ) : Matrix := ⟨nrows, ncols, List.replicate (nrows * ncols) 0⟩

/-- `Matrix::get`: `cells[r * nrows + c]`.  Note the source multiplies
by `nrows`, not `ncols` — harmless for the square matrices the program
uses but kept faithfully here.  The source also `assert!`s `r < nrows`
and `c < ncols` and panics otherwise; the model is total (out of
bounds reads the default 0), so these interior panics are NOT
modelled.  Theorems therefore state failure only through the
explicitly modelled operator-level dimension asserts and confine
success statements to in-bounds regimes (equal square / 4×4
operands). -/
def get (m : Matrix) (r c : ℕ) : ℚ := m.cells.getD (r * m.nrows + c) 0

/-- `Matrix::set`: `cells[r * nrows + c] = v`.  The source `assert!`s
the same bounds as `get`; an out-of-range write, which `List.set`
silently drops here, panics in Rust — not modelled, see `get`. -/
def set (m : Matrix) (r c : ℕ) (v : ℚ) : Matrix :=
  { m with cells := m.cells.set (r * m.nrows + c) v }

/-- Builds an `(nr, nc)` matrix whose cell `(r, c)` — under the
`r * nrows + c` layout above — is `f r c`.  Functional form of the
source's `new`-then-`set`-every-cell loops. -/
def init (nr nc : ℕ) (f : ℕ → ℕ → ℚ) : Matrix :=
  ⟨nr, nc, (List.range (nr * nc)).map fun p => f (p / nr) (p % nr)⟩

/-- `Matrix::new_4x4_identity`: a zero 4×4 matrix with ones set on the
diagonal. -/
def identity4 : Matrix := (List.range 4).foldl (fun m i => m.set i i 1) (new 4 4)

/-- `Matrix::transposed`: cell `(c, r)` of the result is cell `(r, c)`
of the source matrix. -/
def transposed (m : Matrix) : Matrix := init m.ncols m.nrows fun r c => m.get c r

/-- `Matrix::submatrix`: copy without row `row` and column `col`. -/
def submatrix (m : Matrix) (row col : ℕ) : Matrix :=
  init (m.nrows - 1) (m.ncols - 1) fun r c =>
    m.get (if r < row then r else r + 1) (if c < col then c else c + 1)

/-- Cofactor sign `(-1)^(row+col)`, written as the source's
`(row + col) & 1 == 1` test. -/
def cofSign (row col : ℕ) : ℚ := if (row + col) % 2 = 1 then -1 else 1

/-- `Matrix::determinant`, with the recursion on submatrices driven by
a fuel argument equal to `nrows` (the source's recursion terminates
because `submatrix` always removes one row).  `ad − bc` for 2×2,
cofactor expansion along row 0 otherwise; `cells.getD i 0` is the
source's `self.cells[i]`, i.e. cell `(0, i)`. -/
def detAux : ℕ → Matrix → ℚ
  | 0, _ => 0
  | fuel + 1, m =>
    if m.nrows = 2 ∧ m.ncols = 2 then
      m.get 0 0 * m.get 1 1 - m.get 0 1 * m.get 1 0
    else
      ((List.range m.ncols).map fun i =>
        m.cells.getD i 0 * (cofSign 0 i * detAux fuel (m.submatrix 0 i))).sum

/-- `Matrix::determinant`. -/
def determinant (m : Matrix) : ℚ := detAux m.nrows m

/-- `Matrix::minor`: determinant of the submatrix. -/
def minor (m : Matrix) (row col : ℕ) : ℚ := (m.submatrix row col).determinant

/-- `Matrix::cofactor`: the minor, negated when `row + col` is odd. -/
def cofactor (m : Matrix) (row col : ℕ) : ℚ := cofSign row col * m.minor row col

/-- `Matrix::invertible`: `determinant() != 0.0`. -/
def invertible (m : Matrix) : Prop := m.determinant ≠ 0

instance (m : Matrix) : Decidable m.invertible := by
  unfold invertible; infer_instance

/-- `Matrix::inverted`: `assert!(invertible())` (modelled as the
`NotInvertible` failure), then `im.set(c, r, cofactor(r, c) / det)` for
every `(r, c)` — i.e. result cell `(i, j)` is `cofactor(j, i) / det`. -/
def inverted (m : Matrix) : Except RtError Matrix :=
  if m.determinant = 0 then .error .notInvertible
  else
    .ok (init m.nrows m.ncols fun i j => m.cofactor j i / m.determinant)

/-- `impl Mul for &Matrix`: `assert_eq!(self.nrows, o.ncols)` (note:
NOT the inner dimensions), result allocated as `new(o.ncols,
self.nrows)`, and cell `(r, c)` set to `Σ_{i < self.nrows}
self.get(r, i) * o.get(i, c)` for `r < self.nrows`, `c < self.ncols`.
Only this leading assert is modelled as an error; when it passes,
non-square shapes could still panic inside `get`/`set` bounds asserts,
a path not modelled (see `get`) and outside every theorem's scope. -/
def matMul (l o : Matrix) : Except RtError Matrix :=
  if l.nrows ≠ o.ncols then .error .invalidDimension
  else
    .ok (init o.ncols l.nrows fun r c =>
      ((List.range l.nrows).map fun i => l.get r i * o.get i c).sum)

/-- `impl Mul<&Tuple> for &Matrix`: `assert_eq!(self.ncols, 4)`, then
for each row `r` the dot product of row `r` with the tuple is written
into component `r` of a zero tuple.  Only the leading assert is
modelled as an error; a matrix with more than 4 rows would pass it and
then panic in Rust at `Tuple::set`'s array indexing, a path not
modelled and outside every theorem's scope. -/
def mulTuple (m : Matrix) (t : Tuple) : Except RtError Tuple :=
  if m.ncols ≠ 4 then .error .invalidDimension
  else
    .ok ((List.range m.nrows).foldl
      (fun res r =>
        res.set r (((List.range m.ncols).map fun c => m.get r c * t.get c).sum))
      Tuple.newZero)

end Matrix

/-- `Ray` from `src/ray.rs`. -/
structure Ray where
  origin : Tuple
  direction : Tuple
  deriving DecidableEq, Repr

namespace Ray

/-- `Ray::position`: `origin + direction * t`. -/
def position (r : Ray) (t : ℚ) : Tuple := r.origin.add (r.direction.smul t)

/-- `Ray::transformed`: applies `m` independently to origin and
direction (each a `Matrix * Tuple` product, which can fail). -/
def transformed (r : Ray) (m : Matrix) : Except RtError Ray := do
  let o ← m.mulTuple r.origin
  let d ← m.mulTuple r.direction
  pure ⟨o, d⟩

end Ray

/-- `Object` from `src/shape.rs`: the closed set of object kinds. -/
inductive Object
  | sphere
  deriving DecidableEq, Repr

/-- `Shape` from `src/shape.rs`. -/
structure Shape where
  transform : Matrix
  material : Material
  object : Object
  deriving DecidableEq, Repr

/-- `Shape::new`: identity transform and default material. -/
def Shape.new (o : Object) : Shape := ⟨Matrix.identity4, Material.default, o⟩

/-- `Intersection` from `src/shape.rs`.  The Rust value borrows the
`Shape`; the embedding stores the shape value itself (shape identity is
value identity here). -/
structure Intersection where
  shape : Shape
  distance : ℚ
  deriving DecidableEq, Repr

/-- `Object::intersections` (sphere arm): the quadratic
`a·t² + b·t + c = 0` with `a = dot(d, d)`, `b = 2·dot(d, o)`,
`c = dot(o, o) − 1`, `o = transformed origin − ORIGIN`; empty when the
discriminant is negative, else the two roots in the source's order.
`sqrtF` models `f64::sqrt`. -/
def Object.intersectionsImpl (sqrtF : ℚ → ℚ) (shape : Shape) (transRay : Ray) :
    List Intersection :=
  match shape.object with
  | .sphere =>
    let sphereToRay := transRay.origin.sub ORIGIN
    let a := transRay.direction.dot transRay.direction
    let b := 2 * transRay.direction.dot sphereToRay
    let c := sphereToRay.dot sphereToRay - 1
    let discriminant := b * b - 4 * a * c
    if discriminant < 0 then []
    else
      let disSqrt := sqrtF discriminant
      let a2 := 2 * a
      [⟨shape, (-b - disSqrt) / a2⟩, ⟨shape, (-b + disSqrt) / a2⟩]

/-- `Shape::intersections`: transforms the ray by the inverse of the
shape's transform (`inverted` can fail), then dispatches on the object
kind. -/
def Shape.intersections (sqrtF : ℚ → ℚ) (s : Shape) (ray : Ray) :
    Except RtError (List Intersection) := do
  let it ← s.transform.inverted
  let transRay ← ray.transformed it
  pure (Object.intersectionsImpl sqrtF s transRay)

/-- `Shape::normal_at`: map the point to object space, take the
object-space normal (`point − ORIGIN` for the sphere), map back with
the transpose of the inverse, zero the `w` component, normalize. -/
def Shape.normalAt (sqrtF : ℚ → ℚ) (s : Shape) (worldPt : Tuple) :
    Except RtError Tuple := do
  let it ← s.transform.inverted
  let objPt ← it.mulTuple worldPt
  let objNormal :=
    match s.object with
    | .sphere => objPt.sub ORIGIN
  let worldNormal ← it.transposed.mulTuple objNormal
  pure ((worldNormal.set 3 0).normalized sqrtF)

/-- `IntersectionList::hit`: filter to `distance >= 0.0`, then Rust's
`min_by` with a comparator returning `Less` iff `l.distance <
r.distance` (and `Greater` otherwise): a left fold that keeps the
accumulator exactly when its distance is strictly smaller. -/
def hit (xs : List Intersection) : Option Intersection :=
  match xs.filter (fun i => 0 ≤ i.distance) with
  | [] => none
  | x :: rest =>
    some (rest.foldl (fun acc y => if acc.distance < y.distance then acc else y) x)

/-- `Computations` from `src/shape.rs`. -/
structure Computations where
  distance : ℚ
  object : Shape
  point : Tuple
  overPoint : Tuple
  eyeVec : Tuple
  normalVec : Tuple
  inside : Bool
  deriving DecidableEq, Repr

/-- `Intersection::prepare_computations`. -/
def Intersection.prepareComputations (sqrtF : ℚ → ℚ) (i : Intersection)
    (ray : Ray) : Except RtError Computations := do
  let point := ray.position i.distance
  let normalVec0 ← i.shape.normalAt sqrtF point
  let eyeVec := ray.direction.neg
  let inside := normalVec0.dot eyeVec < 0
  let normalVec := if normalVec0.dot eyeVec < 0 then normalVec0.neg else normalVec0
  let overPoint := point.add (normalVec.smul EPSILON)
  pure ⟨i.distance, i.shape, point, overPoint, eyeVec, normalVec, decide inside⟩

/-- The ordering `World::intersects` sorts by:
`l.distance.partial_cmp(&r.distance)` (which would be `None` — a panic
via `.expect("NaN unexpected")` — only for NaN, which exact rationals
cannot represent). -/
def distLE (a b : Intersection) : Prop := a.distance ≤ b.distance

instance : DecidableRel distLE := fun a b => by unfold distLE; infer_instance

instance : IsTotal Intersection distLE := ⟨fun a b => le_total a.distance b.distance⟩

instance : IsTrans Intersection distLE := ⟨fun _ _ _ => le_trans⟩

/-- `World` from `src/world.rs`. -/
structure World where
  light : PointLight
  objects : List Shape
  deriving DecidableEq, Repr

namespace World

/-- The `flat_map` over all objects in `World::intersects` (a panic in
any shape's `intersections` propagates). -/
def intersectAll (sqrtF : ℚ → ℚ) (objects : List Shape) (ray : Ray) :
    Except RtError (List Intersection) :=
  match objects with
  | [] => .ok []
  | o :: rest => do
    let xs ← o.intersections sqrtF ray
    let more ← intersectAll sqrtF rest ray
    pure (xs ++ more)

/-- `World::intersects`: gather every shape's intersections, then
`sort_unstable_by` ascending distance.  The library sort guarantees an
ascending reordering (tie order unspecified); the embedding uses
insertion sort, which satisfies that contract. -/
def intersects (sqrtF : ℚ → ℚ) (w : World) (ray : Ray) :
    Except RtError (List Intersection) := do
  let xs ← intersectAll sqrtF w.objects ray
  pure (List.insertionSort distLE xs)

/-- `World::point_status`: cast a ray from `pt` toward the light; in
shadow iff the hit (if any) is nearer than the light. -/
def pointStatus (sqrtF : ℚ → ℚ) (w : World) (pt : Tuple) :
    Except RtError PointStatus := do
  let vec := w.light.position.sub pt
  let ray : Ray := ⟨pt, vec.normalized sqrtF⟩
  let xs ← w.intersects sqrtF ray
  pure (match hit xs with
    | some i => if i.distance < vec.magnitude sqrtF then .inShadow else .inLight
    | none => .inLight)

/-- `World::shade_hit`: evaluate `lighting` at the over point with the
point's shadow status. -/
def shadeHit (sqrtF : ℚ → ℚ) (powF : ℚ → ℚ → ℚ) (w : World)
    (comps : Computations) : Except RtError Color := do
  let status ← w.pointStatus sqrtF comps.overPoint
  pure (lighting sqrtF powF comps.object.material w.light comps.overPoint
    comps.eyeVec comps.normalVec status)

/-- `World::color_at`: black when the sorted intersection list is
empty, else shade the first element (`xs[0]`). -/
def colorAt (sqrtF : ℚ → ℚ) (powF : ℚ → ℚ → ℚ) (w : World) (ray : Ray) :
    Except RtError Color := do
  let xs ← w.intersects sqrtF ray
  match xs with
  | [] => pure BLACK
  | x :: _ => do
    let comps ← x.prepareComputations sqrtF ray
    w.shadeHit sqrtF powF comps

end World

/-- `Camera` from `src/camera.rs`. -/
structure Camera where
  hsize : ℕ
  vsize : ℕ
  fieldOfView : ℚ
  halfWidth : ℚ
  halfHeight : ℚ
  pixelSize : ℚ
  transform : Matrix
  deriving DecidableEq, Repr

namespace Camera

/-- `Camera::with_transform`: `half_view = tan(fov / 2)`,
`aspect = hsize / vsize`, half extents split on `aspect >= 1.0`,
`pixel_size = half_width * 2 / hsize`.  `tanF` models `f64::tan`. -/
def withTransform (tanF : ℚ → ℚ) (hsize vsize : ℕ) (fieldOfView : ℚ)
    (transform : Matrix) : Camera :=
  let halfView := tanF (fieldOfView / 2)
  let aspect := (hsize : ℚ) / (vsize : ℚ)
  let hw : ℚ × ℚ :=
    if 1 ≤ aspect then (halfView, halfView / aspect)
    else (halfView * aspect, halfView)
  let pixelSize := hw.1 * 2 / (hsize : ℚ)
  ⟨hsize, vsize, fieldOfView, hw.1, hw.2, pixelSize, transform⟩

/-- `Camera::ray_for_pixel`. -/
def rayForPixel (sqrtF : ℚ → ℚ) (c : Camera) (x y : ℕ) :
    Except RtError Ray := do
  let xOff := ((x : ℚ) + 1/2) * c.pixelSize
  let yOff := ((y : ℚ) + 1/2) * c.pixelSize
  let xWorld := c.halfWidth - xOff
  let yWorld := c.halfHeight - yOff
  let t ← c.transform.inverted
  let pixel ← t.mulTuple (Tuple.newPoint xWorld yWorld (-1))
  let origin ← t.mulTuple ORIGIN
  let direction := (pixel.sub origin).normalized sqrtF
  pure ⟨origin, direction⟩

end Camera

/-! ## Helper lemmas -/

theorem Matrix.init_get (nr nc : ℕ) (f : ℕ → ℕ → ℚ) (r c : ℕ)
    (hc : c < nr) (hr : r < nc) : (Matrix.init nr nc f).get r c = f r c := by
  have hnr : 0 < nr := lt_of_le_of_lt (Nat.zero_le c) hc
  have hp : r * nr + c < nr * nc := by
    calc r * nr + c < r * nr + nr := by omega
      _ = (r + 1) * nr := by ring
      _ ≤ nc * nr := Nat.mul_le_mul_right nr hr
      _ = nr * nc := Nat.mul_comm nc nr
  have hdiv : (r * nr + c) / nr = r := by
    rw [Nat.add_comm, Nat.add_mul_div_right c r hnr, Nat.div_eq_of_lt hc,
      Nat.zero_add]
  have hmod : (r * nr + c) % nr = c := by
    rw [Nat.add_comm, Nat.add_mul_mod_self_right, Nat.mod_eq_of_lt hc]
  unfold Matrix.init Matrix.get
  rw [List.getD_eq_getElem?_getD,
    List.getElem?_eq_getElem (by simpa using hp), List.getElem_map,
    Option.getD_some, List.getElem_range, hdiv, hmod]

theorem Matrix.inverted_eq_ok (m : Matrix) (h : m.determinant ≠ 0) :
    m.inverted =
      .ok (Matrix.init m.nrows m.ncols fun i j => m.cofactor j i / m.determinant) := by
  unfold Matrix.inverted
  rw [if_neg h]

theorem Matrix.mulTuple_eq_of_dims (m : Matrix) (t : Tuple)
    (h4r : m.nrows = 4) (h4c : m.ncols = 4) :
    m.mulTuple t =
      .ok (Tuple.new
        (((List.range 4).map fun c => m.get 0 c * t.get c).sum)
        (((List.range 4).map fun c => m.get 1 c * t.get c).sum)
        (((List.range 4).map fun c => m.get 2 c * t.get c).sum)
        (((List.range 4).map fun c => m.get 3 c * t.get c).sum)) := by
  unfold Matrix.mulTuple
  rw [h4r, h4c, if_neg (by norm_num)]
  rfl

theorem Matrix.detAux_mk2 (a b c d : ℚ) :
    Matrix.detAux 2 (Matrix.mk 2 2 [a, b, c, d]) = a * d - b * c := rfl

theorem Matrix.detAux_mk3 (a0 a1 a2 a3 a4 a5 a6 a7 a8 : ℚ) :
    Matrix.detAux 3 (Matrix.mk 3 3 [a0, a1, a2, a3, a4, a5, a6, a7, a8]) =
      a0 * (a4 * a8 - a5 * a7) - a1 * (a3 * a8 - a5 * a6) +
        a2 * (a3 * a7 - a4 * a6) := by
  simp only [Matrix.detAux, Matrix.submatrix, Matrix.init, Matrix.get,
    Matrix.cofSign, List.range_succ, List.range_zero, List.map_append,
    List.map_cons, List.map_nil, List.sum_append, List.sum_cons, List.sum_nil,
    List.nil_append, List.cons_append, List.getD_cons_zero, List.getD_cons_succ]
  norm_num [List.getD]
  ring

set_option maxHeartbeats 2000000 in
theorem Matrix.detAux_mk4
    (m0 m1 m2 m3 m4 m5 m6 m7 m8 m9 m10 m11 m12 m13 m14 m15 : ℚ) :
    Matrix.detAux 4
      (Matrix.mk 4 4 [m0, m1, m2, m3, m4, m5, m6, m7, m8, m9, m10, m11, m12,
        m13, m14, m15]) =
      m0 * (m5 * (m10 * m15 - m11 * m14) - m6 * (m9 * m15 - m11 * m13) +
        m7 * (m9 * m14 - m10 * m13))
      - m1 * (m4 * (m10 * m15 - m11 * m14) - m6 * (m8 * m15 - m11 * m12) +
        m7 * (m8 * m14 - m10 * m12))
      + m2 * (m4 * (m9 * m15 - m11 * m13) - m5 * (m8 * m15 - m11 * m12) +
        m7 * (m8 * m13 - m9 * m12))
      - m3 * (m4 * (m9 * m14 - m10 * m13) - m5 * (m8 * m14 - m10 * m12) +
        m6 * (m8 * m13 - m9 * m12)) := by
  simp only [Matrix.detAux, Matrix.submatrix, Matrix.init, Matrix.get,
    Matrix.cofSign, List.range_succ, List.range_zero, List.map_append,
    List.map_cons, List.map_nil, List.sum_append, List.sum_cons, List.sum_nil,
    List.nil_append, List.cons_append, List.getD_cons_zero, List.getD_cons_succ]
  norm_num [List.getD]
  ring

theorem Matrix.identity4_eq :
    Matrix.identity4 =
      Matrix.mk 4 4 [1, 0, 0, 0, 0, 1, 0, 0, 0, 0, 1, 0, 0, 0, 0, 1] := rfl

theorem Matrix.identity4_det : Matrix.identity4.determinant = 1 := by
  rw [Matrix.identity4_eq]
  show Matrix.detAux 4 _ = 1
  rw [Matrix.detAux_mk4]
  norm_num

set_option maxHeartbeats 4000000 in
theorem Matrix.identity4_inverted :
    Matrix.identity4.inverted = .ok Matrix.identity4 := by
  rw [Matrix.inverted_eq_ok _ (by rw [Matrix.identity4_det]; norm_num)]
  rw [Matrix.identity4_det]
  congr 1
  conv_rhs => rw [Matrix.identity4_eq]
  simp only [Matrix.identity4_eq, Matrix.init, Matrix.cofactor, Matrix.minor,
    Matrix.determinant, Matrix.detAux, Matrix.submatrix, Matrix.get,
    Matrix.cofSign, List.range_succ, List.range_zero, List.map_append,
    List.map_cons, List.map_nil, List.sum_append, List.sum_cons, List.sum_nil,
    List.nil_append, List.cons_append, List.getD_cons_zero, List.getD_cons_succ]
  norm_num [List.getD]

theorem Matrix.mulTuple_mk4
    (m0 m1 m2 m3 m4 m5 m6 m7 m8 m9 m10 m11 m12 m13 m14 m15 : ℚ) (t : Tuple) :
    (Matrix.mk 4 4 [m0, m1, m2, m3, m4, m5, m6, m7, m8, m9, m10, m11, m12, m13,
      m14, m15]).mulTuple t =
      .ok (Tuple.new (m0 * t.x + (m1 * t.y + (m2 * t.z + (m3 * t.w + 0))))
        (m4 * t.x + (m5 * t.y + (m6 * t.z + (m7 * t.w + 0))))
        (m8 * t.x + (m9 * t.y + (m10 * t.z + (m11 * t.w + 0))))
        (m12 * t.x + (m13 * t.y + (m14 * t.z + (m15 * t.w + 0))))) := rfl

theorem Matrix.identity4_mulTuple (t : Tuple) :
    Matrix.identity4.mulTuple t = .ok t := by
  rw [Matrix.identity4_eq, Matrix.mulTuple_mk4]
  cases t with
  | mk x y z w =>
    simp only [Tuple.new, Except.ok.injEq, Tuple.mk.injEq]
    refine ⟨by ring, by ring, by ring, by ring⟩

theorem bind_ok {α β : Type} (a : α) (f : α → Except RtError β) :
    (Except.ok a : Except RtError α) >>= f = f a := rfl

theorem bind_err {α β : Type} (e : RtError) (f : α → Except RtError β) :
    (Except.error e : Except RtError α) >>= f = .error e := rfl

theorem Ray.identity4_transformed (r : Ray) :
    r.transformed Matrix.identity4 = .ok r := by
  cases r with
  | mk o d =>
    simp [Ray.transformed, Matrix.identity4_mulTuple, bind_ok]

theorem Shape.new_intersections (sqrtF : ℚ → ℚ) (o : Object) (ray : Ray) :
    (Shape.new o).intersections sqrtF ray =
      .ok (Object.intersectionsImpl sqrtF (Shape.new o) ray) := by
  simp [Shape.intersections, Shape.new, Matrix.identity4_inverted,
    Ray.identity4_transformed, bind_ok]

theorem foldl_min_mem (rest : List Intersection) (x : Intersection) :
    rest.foldl (fun acc y => if acc.distance < y.distance then acc else y) x ∈
      x :: rest := by
  induction rest generalizing x with
  | nil => simp
  | cons y t ih =>
    simp only [List.foldl_cons]
    by_cases hxy : x.distance < y.distance
    · have h := ih x
      rw [if_pos hxy]
      simp only [List.mem_cons] at h ⊢
      tauto
    · have h := ih y
      rw [if_neg hxy]
      simp only [List.mem_cons] at h ⊢
      tauto

theorem foldl_min_le (rest : List Intersection) (x : Intersection) :
    ∀ j ∈ x :: rest,
      (rest.foldl (fun acc y => if acc.distance < y.distance then acc else y)
        x).distance ≤ j.distance := by
  induction rest generalizing x with
  | nil =>
    intro j hj
    simp only [List.mem_singleton] at hj
    subst hj
    exact le_refl _
  | cons y t ih =>
    intro j hj
    simp only [List.foldl_cons]
    by_cases hxy : x.distance < y.distance
    · rw [if_pos hxy]
      rcases List.mem_cons.mp hj with heq | hj'
      · rw [heq]
        exact ih x x (List.mem_cons_self x t)
      rcases List.mem_cons.mp hj' with heq | hj''
      · rw [heq]
        exact le_trans (ih x x (List.mem_cons_self x t)) (le_of_lt hxy)
      · exact ih x j (List.mem_cons_of_mem x hj'')
    · rw [if_neg hxy]
      rcases List.mem_cons.mp hj with heq | hj'
      · rw [heq]
        exact le_trans (ih y y (List.mem_cons_self y t)) (le_of_not_lt hxy)
      rcases List.mem_cons.mp hj' with heq | hj''
      · rw [heq]
        exact ih y y (List.mem_cons_self y t)
      · exact ih y j (List.mem_cons_of_mem y hj'')

theorem World.intersects_eq (sqrtF : ℚ → ℚ) (w : World) (ray : Ray) :
    w.intersects sqrtF ray =
      (World.intersectAll sqrtF w.objects ray).map (List.insertionSort distLE) := by
  unfold World.intersects
  cases World.intersectAll sqrtF w.objects ray with
  | error e => rfl
  | ok xs => rfl

theorem World.colorAt_eq (sqrtF : ℚ → ℚ) (powF : ℚ → ℚ → ℚ) (w : World)
    (ray : Ray) :
    w.colorAt sqrtF powF ray =
      match w.intersects sqrtF ray with
      | .error e => .error e
      | .ok [] => .ok BLACK
      | .ok (x :: _) =>
        (x.prepareComputations sqrtF ray).bind (w.shadeHit sqrtF powF) := by
  unfold World.colorAt
  cases w.intersects sqrtF ray with
  | error e => rfl
  | ok xs => cases xs with
    | nil => rfl
    | cons x t => rfl

/-! ## Claims -/

/-- C1: the Phong lighting evaluation takes a precomputed shadow status
among its inputs, and for every material, light, point, eye vector and
normal vector, when the status is `InShadow` it returns the ambient term
alone — `effective_color × material.ambient` with
`effective_color = material.color ⊙ light.intensity` — with no diffuse
or specular contribution. -/
theorem lighting_inShadow_ambient_only (sqrtF : ℚ → ℚ) (powF : ℚ → ℚ → ℚ)
    (m : Material) (light : PointLight) (pt eyeVec normalVec : Tuple) :
    lighting sqrtF powF m light pt eyeVec normalVec .inShadow =
      (m.color.mul light.intensity).smul m.ambient := rfl

/-- C9: camera construction computes `half_view = tan(fov/2)`,
`aspect = width/height`, `half_width = half_view` and `half_height =
half_view/aspect` when `aspect ≥ 1` (the reverse scaling otherwise),
and `pixel_size = 2·half_width/width`; consequently for a 201×101
camera with `tan(fov/2) = 1` (fov = π/2), `ray_for_pixel(100, 50)` has
origin `(0,0,0)` and direction exactly `(0,0,-1)`, and
`ray_for_pixel(0, 0)` has direction within the `nearly_equal` tolerance
of `(0.66519, 0.33259, -0.66851)` for any `sqrtF` within rational
bounds of the true square root of `90401/40401`. -/
theorem camera_construction_and_rays :
    (∀ (tanF : ℚ → ℚ) (hs vs : ℕ) (fov : ℚ) (tr : Matrix),
      (Camera.withTransform tanF hs vs fov tr).halfWidth =
        (if 1 ≤ (hs : ℚ) / (vs : ℚ) then tanF (fov / 2)
         else tanF (fov / 2) * ((hs : ℚ) / (vs : ℚ))) ∧
      (Camera.withTransform tanF hs vs fov tr).halfHeight =
        (if 1 ≤ (hs : ℚ) / (vs : ℚ) then tanF (fov / 2) / ((hs : ℚ) / (vs : ℚ))
         else tanF (fov / 2)) ∧
      (Camera.withTransform tanF hs vs fov tr).pixelSize =
        2 * (Camera.withTransform tanF hs vs fov tr).halfWidth / (hs : ℚ)) ∧
    (∀ (tanF sqrtF : ℚ → ℚ) (fov : ℚ), tanF (fov / 2) = 1 → sqrtF 1 = 1 →
      (Camera.withTransform tanF 201 101 fov Matrix.identity4).rayForPixel
        sqrtF 100 50 = .ok ⟨ORIGIN, Tuple.newVector 0 0 (-1)⟩) ∧
    (∀ (tanF sqrtF : ℚ → ℚ) (fov : ℚ), tanF (fov / 2) = 1 →
      (1495850/1000000 : ℚ) ≤ sqrtF (90401/40401) →
      sqrtF (90401/40401) ≤ 1495865/1000000 →
      ∃ r, (Camera.withTransform tanF 201 101 fov Matrix.identity4).rayForPixel
          sqrtF 0 0 = .ok r ∧
        r.origin = ORIGIN ∧
        Tuple.eqApprox r.direction
          (Tuple.newVector (66519/100000) (33259/100000)
            (-(66851/100000))) = true) := by
  refine ⟨?_, ?_, ?_⟩
  · intro tanF hs vs fov tr
    unfold Camera.withTransform
    by_cases h : 1 ≤ (hs : ℚ) / (vs : ℚ) <;> simp [h] <;> ring
  · intro tanF sqrtF fov htan hsq
    have hcam : Camera.withTransform tanF 201 101 fov Matrix.identity4 =
        ⟨201, 101, fov, 1, 101/201, 2/201, Matrix.identity4⟩ := by
      unfold Camera.withTransform
      rw [htan]
      norm_num
    rw [hcam]
    unfold Camera.rayForPixel
    rw [Matrix.identity4_inverted, bind_ok, Matrix.identity4_mulTuple, bind_ok,
      Matrix.identity4_mulTuple, bind_ok]
    show Except.ok _ = _
    congr 2
    norm_num [Tuple.newPoint, Tuple.sub, ORIGIN, Tuple.normalized,
      Tuple.magnitude, hsq, Tuple.newVector]
  · intro tanF sqrtF fov htan hlo hhi
    have hm0 : (0:ℚ) < sqrtF (90401/40401) := by linarith
    have hcam : Camera.withTransform tanF 201 101 fov Matrix.identity4 =
        ⟨201, 101, fov, 1, 101/201, 2/201, Matrix.identity4⟩ := by
      unfold Camera.withTransform
      rw [htan]
      norm_num
    have hray : (Camera.withTransform tanF 201 101 fov
        Matrix.identity4).rayForPixel sqrtF 0 0 =
        .ok ⟨ORIGIN,
          Tuple.normalized sqrtF (Tuple.mk (200/201) (100/201) (-1) 0)⟩ := by
      rw [hcam]
      unfold Camera.rayForPixel
      rw [Matrix.identity4_inverted, bind_ok, Matrix.identity4_mulTuple,
        bind_ok, Matrix.identity4_mulTuple, bind_ok]
      show Except.ok _ = _
      congr 2
      norm_num [Tuple.newPoint, Tuple.sub, ORIGIN]
    refine ⟨_, hray, rfl, ?_⟩
    show Tuple.eqApprox
      (Tuple.normalized sqrtF (Tuple.mk (200/201) (100/201) (-1) 0)) _ = true
    have harg : ((200:ℚ)/201 * (200/201) + 100/201 * (100/201) + (-1) * (-1) +
        0 * 0) = 90401/40401 := by norm_num
    simp only [Tuple.normalized, Tuple.magnitude, harg]
    simp only [Tuple.eqApprox, nearlyEqual, EPSILON, Tuple.newVector,
      Bool.and_eq_true, decide_eq_true_eq, abs_sub_lt_iff]
    have hxu : (200:ℚ)/201 / sqrtF (90401/40401) < 66520/100000 := by
      rw [div_lt_iff₀ hm0]; linarith
    have hxl : (66518:ℚ)/100000 < 200/201 / sqrtF (90401/40401) := by
      rw [lt_div_iff₀ hm0]; linarith
    have hyu : (100:ℚ)/201 / sqrtF (90401/40401) < 33260/100000 := by
      rw [div_lt_iff₀ hm0]; linarith
    have hyl : (33258:ℚ)/100000 < 100/201 / sqrtF (90401/40401) := by
      rw [lt_div_iff₀ hm0]; linarith
    have hzu : (-1:ℚ) / sqrtF (90401/40401) < -(66850/100000) := by
      rw [div_lt_iff₀ hm0]; nlinarith
    have hzl : (-(66852/100000) : ℚ) < -1 / sqrtF (90401/40401) := by
      rw [lt_div_iff₀ hm0]; nlinarith
    have hw0 : (0:ℚ) / sqrtF (90401/40401) = 0 := zero_div _
    and_intros <;> linarith

/-- C9 witness: the theorem's ray conclusions at `tanF = const 1`,
`fov = 0` and a concrete `sqrtF` within the stated bounds. -/
theorem camera_construction_and_rays_witness :
    ((fun _ : ℚ => (1:ℚ)) ((0:ℚ) / 2) = 1) ∧
    ((fun q : ℚ => if q = 1 then (1:ℚ) else 1495858/1000000) 1 = 1) ∧
    ((1495850/1000000 : ℚ) ≤
      (fun q : ℚ => if q = 1 then (1:ℚ) else 1495858/1000000) (90401/40401)) ∧
    ((fun q : ℚ => if q = 1 then (1:ℚ) else 1495858/1000000) (90401/40401) ≤
      1495865/1000000) ∧
    ((Camera.withTransform (fun _ => 1) 201 101 0 Matrix.identity4).rayForPixel
      (fun q => if q = 1 then 1 else 1495858/1000000) 100 50 =
        .ok ⟨ORIGIN, Tuple.newVector 0 0 (-1)⟩) ∧
    (∃ r, (Camera.withTransform (fun _ => 1) 201 101 0
        Matrix.identity4).rayForPixel
        (fun q => if q = 1 then 1 else 1495858/1000000) 0 0 = .ok r ∧
      r.origin = ORIGIN ∧
      Tuple.eqApprox r.direction
        (Tuple.newVector (66519/100000) (33259/100000)
          (-(66851/100000))) = true) := by
  have htan : (fun _ : ℚ => (1:ℚ)) ((0:ℚ) / 2) = 1 := rfl
  have hsq : (fun q : ℚ => if q = 1 then (1:ℚ) else 1495858/1000000) 1 = 1 := by
    norm_num
  have hlo : (1495850/1000000 : ℚ) ≤
      (fun q : ℚ => if q = 1 then (1:ℚ) else 1495858/1000000) (90401/40401) := by
    norm_num
  have hhi : (fun q : ℚ => if q = 1 then (1:ℚ) else 1495858/1000000)
      (90401/40401) ≤ 1495865/1000000 := by
    norm_num
  exact ⟨htan, hsq, hlo, hhi,
    camera_construction_and_rays.2.1 _ _ 0 htan hsq,
    camera_construction_and_rays.2.2 _ _ 0 htan hlo hhi⟩

/-- C10: `Tuple` equality is approximate, not exact: two tuples compare
equal exactly when all four components differ by strictly less than
`1e-5` in absolute value; hence it is reflexive and symmetric but not
transitive, and distinct constructed points within the tolerance compare
equal. -/
theorem tuple_eq_approx_characterization :
    (∀ a b : Tuple, a.eqApprox b = true ↔
      (|a.x - b.x| < 1/100000 ∧ |a.y - b.y| < 1/100000 ∧
        |a.z - b.z| < 1/100000 ∧ |a.w - b.w| < 1/100000)) ∧
    (∀ a : Tuple, a.eqApprox a = true) ∧
    (∀ a b : Tuple, a.eqApprox b = true → b.eqApprox a = true) ∧
    ¬ (∀ a b c : Tuple,
        a.eqApprox b = true → b.eqApprox c = true → a.eqApprox c = true) ∧
    (Tuple.newPoint 1 2 3 ≠ Tuple.newPoint 1 2 (3 + 1/200000) ∧
      (Tuple.newPoint 1 2 3).eqApprox (Tuple.newPoint 1 2 (3 + 1/200000)) = true) := by
  have hiff : ∀ a b : Tuple, a.eqApprox b = true ↔
      (|a.x - b.x| < 1/100000 ∧ |a.y - b.y| < 1/100000 ∧
        |a.z - b.z| < 1/100000 ∧ |a.w - b.w| < 1/100000) := by
    intro a b
    simp [Tuple.eqApprox, nearlyEqual, EPSILON, and_assoc]
  refine ⟨hiff, ?_, ?_, ?_, ?_, ?_⟩
  · intro a
    simp [hiff]
  · intro a b h
    rw [hiff] at h ⊢
    rw [abs_sub_comm b.x a.x, abs_sub_comm b.y a.y, abs_sub_comm b.z a.z,
      abs_sub_comm b.w a.w]
    exact h
  · intro h
    have hac := h (Tuple.newPoint 0 0 0) (Tuple.newPoint (1/125000) 0 0)
      (Tuple.newPoint (2/125000) 0 0)
      (by rw [hiff]; simp only [Tuple.newPoint, abs_sub_lt_iff]; norm_num)
      (by rw [hiff]; simp only [Tuple.newPoint, abs_sub_lt_iff]; norm_num)
    rw [hiff] at hac
    simp only [Tuple.newPoint, abs_sub_lt_iff] at hac
    norm_num at hac
  · intro h
    have hz := congrArg Tuple.z h
    simp only [Tuple.newPoint] at hz
    norm_num at hz
  · rw [hiff]
    simp only [Tuple.newPoint, abs_sub_lt_iff]
    norm_num

/-- C7 counterexample: normalizing a zero-magnitude vector does NOT
fail: the source `Tuple::normalized` (unconditional componentwise
division) returns an ordinary tuple — the zero tuple in the exact model,
NaN components in IEEE arithmetic — while the spec-described variant
`normalizedSpec` fails with `DegenerateVector`.  Here `fun _ => 0` is
the honest `sqrtF` at this input since `f64::sqrt(0.0) = 0.0`. -/
theorem normalized_zero_vector_returns_value :
    Tuple.normalized (fun _ => 0) (Tuple.newVector 0 0 0) = Tuple.new 0 0 0 0 ∧
    Tuple.normalizedSpec (fun _ => 0) (Tuple.newVector 0 0 0) =
      .error .degenerateVector := by
  constructor
  · simp [Tuple.normalized, Tuple.magnitude, Tuple.newVector, Tuple.new]
  · simp [Tuple.normalizedSpec, Tuple.magnitude, Tuple.newVector]

/-- C7 (amended): `Tuple::normalized` performs no zero-magnitude check:
for every `sqrtF` with `sqrtF 0 = 0` (as `f64::sqrt`), normalizing the
zero vector silently returns the defaulted zero tuple (each component
divided by the zero magnitude) instead of failing with
`DegenerateVector`; no such error path exists in the source. -/
theorem normalized_zero_vector_silently_defaults (sqrtF : ℚ → ℚ)
    (h : sqrtF 0 = 0) :
    Tuple.normalized sqrtF (Tuple.newVector 0 0 0) = Tuple.new 0 0 0 0 := by
  simp [Tuple.normalized, Tuple.magnitude, Tuple.newVector, Tuple.new, h]

/-- C7 witness: the amended theorem applied at `sqrtF = fun _ => 0`. -/
theorem normalized_zero_vector_silently_defaults_witness :
    (fun _ : ℚ => (0 : ℚ)) 0 = 0 ∧
    Tuple.normalized (fun _ => 0) (Tuple.newVector 0 0 0) = Tuple.new 0 0 0 0 :=
  ⟨rfl, normalized_zero_vector_silently_defaults (fun _ => 0) rfl⟩

/-- C2: `World::color_at` returns black when the sorted intersection
list is empty; otherwise it shades the first element of the sorted list
— the intersection with the globally smallest signed distance — and
that distance may be negative (a case where the nonnegative-filtering
`hit()` returns none), as the unit-sphere world behind the ray from
`(0, 0, 5)` shows. -/
theorem colorAt_shades_first_of_sorted :
    (∀ (sqrtF : ℚ → ℚ) (powF : ℚ → ℚ → ℚ) (w : World) (ray : Ray),
      (w.intersects sqrtF ray = .ok [] → w.colorAt sqrtF powF ray = .ok BLACK) ∧
      (∀ x rest, w.intersects sqrtF ray = .ok (x :: rest) →
        w.colorAt sqrtF powF ray =
          (x.prepareComputations sqrtF ray).bind (w.shadeHit sqrtF powF) ∧
        ∀ y ∈ x :: rest, x.distance ≤ y.distance)) ∧
    (World.intersects (fun q => if q = 4 then 2 else 0)
        ⟨⟨WHITE, Tuple.newPoint (-10) 10 (-10)⟩, [Shape.new .sphere]⟩
        ⟨Tuple.newPoint 0 0 5, Tuple.newVector 0 0 1⟩ =
      .ok [⟨Shape.new .sphere, -6⟩, ⟨Shape.new .sphere, -4⟩] ∧
      hit [⟨Shape.new .sphere, -6⟩, ⟨Shape.new .sphere, -4⟩] = none ∧
      (-6 : ℚ) < 0) := by
  constructor
  · intro sqrtF powF w ray
    constructor
    · intro h
      rw [World.colorAt_eq, h]
    · intro x rest h
      constructor
      · rw [World.colorAt_eq, h]
      · rw [World.intersects_eq] at h
        rcases hall : World.intersectAll sqrtF w.objects ray with e | xs0 <;>
          rw [hall] at h
        · exact absurd h (by simp [Except.map])
        · simp only [Except.map, Except.ok.injEq] at h
          have hsorted := List.sorted_insertionSort distLE xs0
          rw [h] at hsorted
          have hrest := (List.sorted_cons.mp hsorted).1
          intro y hy
          rcases List.mem_cons.mp hy with heq | hy'
          · rw [heq]
          · exact hrest y hy'
  · refine ⟨?_, by norm_num [hit, List.filter], by norm_num⟩
    have h1 : (Shape.new .sphere).intersections (fun q => if q = 4 then 2 else 0)
        ⟨Tuple.newPoint 0 0 5, Tuple.newVector 0 0 1⟩ =
        .ok [⟨Shape.new .sphere, -6⟩, ⟨Shape.new .sphere, -4⟩] := by
      rw [Shape.new_intersections]
      congr 1
      rw [Object.intersectionsImpl]
      norm_num [Shape.new, Tuple.sub, Tuple.dot, ORIGIN, Tuple.newPoint,
        Tuple.newVector]
    rw [World.intersects_eq]
    show (World.intersectAll _ [Shape.new .sphere] _).map _ = _
    rw [World.intersectAll, h1, bind_ok, World.intersectAll, bind_ok]
    show Except.ok (List.insertionSort distLE _) = _
    norm_num [List.insertionSort, List.orderedInsert, distLE]

/-- C2 witness: part one of the theorem applied at the unit-sphere
world whose sorted list `[-6, -4]` starts with a negative distance. -/
theorem colorAt_shades_first_of_sorted_witness :
    World.intersects (fun q => if q = 4 then 2 else 0)
      ⟨⟨WHITE, Tuple.newPoint (-10) 10 (-10)⟩, [Shape.new .sphere]⟩
      ⟨Tuple.newPoint 0 0 5, Tuple.newVector 0 0 1⟩ =
        .ok (⟨Shape.new .sphere, -6⟩ :: [⟨Shape.new .sphere, -4⟩]) ∧
    (World.colorAt (fun q => if q = 4 then 2 else 0) (fun _ _ => 0)
        ⟨⟨WHITE, Tuple.newPoint (-10) 10 (-10)⟩, [Shape.new .sphere]⟩
        ⟨Tuple.newPoint 0 0 5, Tuple.newVector 0 0 1⟩ =
      (Intersection.prepareComputations (fun q => if q = 4 then 2 else 0)
          ⟨Shape.new .sphere, -6⟩
          ⟨Tuple.newPoint 0 0 5, Tuple.newVector 0 0 1⟩).bind
        (World.shadeHit (fun q => if q = 4 then 2 else 0) (fun _ _ => 0)
          ⟨⟨WHITE, Tuple.newPoint (-10) 10 (-10)⟩, [Shape.new .sphere]⟩) ∧
      ∀ y ∈ Intersection.mk (Shape.new .sphere) (-6) ::
          [Intersection.mk (Shape.new .sphere) (-4)],
        (Intersection.mk (Shape.new .sphere) (-6)).distance ≤ y.distance) :=
  ⟨colorAt_shades_first_of_sorted.2.1,
    (colorAt_shades_first_of_sorted.1 (fun q => if q = 4 then 2 else 0)
      (fun _ _ => 0) _ _).2 ⟨Shape.new .sphere, -6⟩ [⟨Shape.new .sphere, -4⟩]
      colorAt_shades_first_of_sorted.2.1⟩

/-- C3 (supporting evaluation at the failing input): with two identical
unit spheres, the concatenated intersections of the ray from
`(0, 0, -5)` contain equal distances (4 and 4, 6 and 6), and the model
— which fixes a sorted reordering, as `sort_unstable_by` only
guarantees — returns them ascending. -/
theorem intersects_equal_distances_at_failing_input :
    World.intersects (fun q => if q = 4 then 2 else 0)
      ⟨⟨WHITE, Tuple.newPoint (-10) 10 (-10)⟩,
        [Shape.new .sphere, Shape.new .sphere]⟩
      ⟨Tuple.newPoint 0 0 (-5), Tuple.newVector 0 0 1⟩ =
      .ok [⟨Shape.new .sphere, 4⟩, ⟨Shape.new .sphere, 4⟩,
        ⟨Shape.new .sphere, 6⟩, ⟨Shape.new .sphere, 6⟩] := by
  have h1 : (Shape.new .sphere).intersections (fun q => if q = 4 then 2 else 0)
      ⟨Tuple.newPoint 0 0 (-5), Tuple.newVector 0 0 1⟩ =
      .ok [⟨Shape.new .sphere, 4⟩, ⟨Shape.new .sphere, 6⟩] := by
    rw [Shape.new_intersections]
    congr 1
    rw [Object.intersectionsImpl]
    norm_num [Shape.new, Tuple.sub, Tuple.dot, ORIGIN, Tuple.newPoint,
      Tuple.newVector]
  rw [World.intersects_eq]
  show (World.intersectAll _ [Shape.new .sphere, Shape.new .sphere] _).map _ = _
  rw [World.intersectAll, h1, bind_ok, World.intersectAll, h1, bind_ok,
    World.intersectAll, bind_ok]
  show Except.ok (List.insertionSort distLE _) = _
  norm_num [List.insertionSort, List.orderedInsert, distLE]

/-- C8 counterexample: a 2×3 matrix times a 3×3 matrix has matching
inner dimensions (left column count 3 = right row count 3), yet the
multiplication fails: the code asserts `self.nrows == o.ncols`
(2 vs 3), not the inner dimensions. -/
theorem matMul_inner_dims_match_yet_fails :
    (Matrix.mk 2 3 [1, 0, 0, 0, 1, 0]).ncols =
      (Matrix.mk 3 3 [1, 0, 0, 0, 1, 0, 0, 0, 1]).nrows ∧
    Matrix.matMul (Matrix.mk 2 3 [1, 0, 0, 0, 1, 0])
      (Matrix.mk 3 3 [1, 0, 0, 0, 1, 0, 0, 0, 1]) = .error .invalidDimension := by
  constructor
  · rfl
  · unfold Matrix.matMul
    rw [if_pos (by decide)]

/-- C8 (amended): for Matrix×Matrix the source asserts
`self.nrows == o.ncols` (NOT the inner dimensions; the two conditions
coincide only for square operands) and fails with the dimension panic
whenever that assert fails, and for Matrix×Coordinate it asserts
`ncols == 4`.  No exactness ("fails only then") is claimed: even when
the leading assert passes, the bounds `assert!`s inside
`Matrix::get`/`Matrix::set` (and the `[f64; 4]` indexing behind
`Tuple::set` for a matrix with more than 4 rows) can still panic on
non-square shapes, and those interior panics are outside this model.
For equal-dimension square operands (resp. a 4×4 matrix — the only
shapes the program builds) every access is in bounds and the result is
the standard dot-product composition. -/
theorem matMul_assert_and_dot_product :
    (∀ l o : Matrix, l.nrows ≠ o.ncols →
      Matrix.matMul l o = .error .invalidDimension) ∧
    (∀ (n : ℕ) (l o : Matrix), l.nrows = n → l.ncols = n → o.nrows = n →
      o.ncols = n →
      ∃ p, Matrix.matMul l o = .ok p ∧ p.nrows = n ∧ p.ncols = n ∧
        ∀ r c, r < n → c < n →
          p.get r c = ((List.range n).map fun i => l.get r i * o.get i c).sum) ∧
    (∀ (m : Matrix) (t : Tuple), m.ncols ≠ 4 →
      m.mulTuple t = .error .invalidDimension) ∧
    (∀ (m : Matrix) (t : Tuple), m.nrows = 4 → m.ncols = 4 →
      m.mulTuple t =
        .ok (Tuple.new (((List.range 4).map fun c => m.get 0 c * t.get c).sum)
          (((List.range 4).map fun c => m.get 1 c * t.get c).sum)
          (((List.range 4).map fun c => m.get 2 c * t.get c).sum)
          (((List.range 4).map fun c => m.get 3 c * t.get c).sum))) := by
  refine ⟨?_, ?_, ?_, Matrix.mulTuple_eq_of_dims⟩
  · intro l o h
    unfold Matrix.matMul
    rw [if_pos h]
  · intro n l o hlr hlc hor hoc
    refine ⟨Matrix.init o.ncols l.nrows
        (fun r c => ((List.range l.nrows).map fun i => l.get r i * o.get i c).sum),
      ?_, ?_, ?_, ?_⟩
    · unfold Matrix.matMul
      rw [if_neg (by rw [hlr, hoc]; exact fun h => h rfl)]
    · show o.ncols = n
      exact hoc
    · show l.nrows = n
      exact hlr
    · intro r c hr hc
      rw [Matrix.init_get o.ncols l.nrows _ r c (by rw [hoc]; exact hc)
        (by rw [hlr]; exact hr), hlr]
  · intro m t h
    unfold Matrix.mulTuple
    rw [if_pos h]

/-- C8 witness: the amended theorem applied at a 1×1·2×2 failing pair,
two square 2×2 matrices, a 2×2 matrix with a tuple (failing the
`ncols == 4` assert), and the 4×4 identity with a tuple. -/
theorem matMul_assert_and_dot_product_witness :
    (Matrix.mk 1 1 [5]).nrows ≠ (Matrix.mk 2 2 [1, 2, 3, 4]).ncols ∧
    Matrix.matMul (Matrix.mk 1 1 [5]) (Matrix.mk 2 2 [1, 2, 3, 4]) =
      .error .invalidDimension ∧
    (Matrix.mk 2 2 [1, 2, 3, 4]).nrows = 2 ∧
    (∃ p, Matrix.matMul (Matrix.mk 2 2 [1, 2, 3, 4])
        (Matrix.mk 2 2 [5, 6, 7, 8]) = .ok p ∧ p.nrows = 2 ∧ p.ncols = 2 ∧
      ∀ r c, r < 2 → c < 2 →
        p.get r c = ((List.range 2).map fun i =>
          (Matrix.mk 2 2 [1, 2, 3, 4]).get r i *
            (Matrix.mk 2 2 [5, 6, 7, 8]).get i c).sum) ∧
    (Matrix.mk 2 2 [1, 2, 3, 4]).ncols ≠ 4 ∧
    (Matrix.mk 2 2 [1, 2, 3, 4]).mulTuple (Tuple.new 1 2 3 4) =
      .error .invalidDimension ∧
    Matrix.identity4.nrows = 4 ∧
    Matrix.identity4.mulTuple (Tuple.new 1 2 3 4) =
      .ok (Tuple.new
        (((List.range 4).map fun c =>
          Matrix.identity4.get 0 c * (Tuple.new 1 2 3 4).get c).sum)
        (((List.range 4).map fun c =>
          Matrix.identity4.get 1 c * (Tuple.new 1 2 3 4).get c).sum)
        (((List.range 4).map fun c =>
          Matrix.identity4.get 2 c * (Tuple.new 1 2 3 4).get c).sum)
        (((List.range 4).map fun c =>
          Matrix.identity4.get 3 c * (Tuple.new 1 2 3 4).get c).sum)) :=
  ⟨by decide,
    matMul_assert_and_dot_product.1 _ _ (by decide),
    rfl,
    matMul_assert_and_dot_product.2.1 2 _ _ rfl rfl rfl rfl,
    by decide,
    matMul_assert_and_dot_product.2.2.1 _ _ (by decide),
    rfl,
    matMul_assert_and_dot_product.2.2.2 _ _ rfl rfl⟩

/-- C4: for every sphere-kind `Shape` (with the 4×4 invertible
transform every shape carries) and every ray, `Shape::intersections`
transforms the ray by the inverse of the shape's transform and solves
`a·t² + b·t + c = 0` with `a = dot(d, d)`, `b = 2·dot(d, o)`,
`c = dot(o, o) − 1`; a negative discriminant yields the empty sequence,
and otherwise exactly two intersections in ascending distance order
(equal when tangent), each referencing that shape. -/
theorem sphere_intersections_quadratic (sqrtF : ℚ → ℚ) (s : Shape) (ray : Ray)
    (hdet : s.transform.determinant ≠ 0)
    (h4r : s.transform.nrows = 4) (h4c : s.transform.ncols = 4) :
    ∃ im tr, s.transform.inverted = .ok im ∧ ray.transformed im = .ok tr ∧
      ∀ svec a b c disc,
        svec = tr.origin.sub ORIGIN →
        a = tr.direction.dot tr.direction →
        b = 2 * tr.direction.dot svec →
        c = svec.dot svec - 1 →
        disc = b * b - 4 * a * c →
        (disc < 0 → s.intersections sqrtF ray = .ok []) ∧
        (0 ≤ disc → 0 ≤ sqrtF disc →
          s.intersections sqrtF ray =
            .ok [⟨s, (-b - sqrtF disc) / (2 * a)⟩,
              ⟨s, (-b + sqrtF disc) / (2 * a)⟩] ∧
          (-b - sqrtF disc) / (2 * a) ≤ (-b + sqrtF disc) / (2 * a)) := by
  obtain ⟨strans, smat, sobj⟩ := s
  cases sobj
  simp only at hdet h4r h4c
  have him : strans.inverted = .ok (Matrix.init strans.nrows strans.ncols
      fun i j => strans.cofactor j i / strans.determinant) :=
    Matrix.inverted_eq_ok _ hdet
  set im := Matrix.init strans.nrows strans.ncols
    (fun i j => strans.cofactor j i / strans.determinant) with him_def
  have himr : im.nrows = 4 := h4r
  have himc : im.ncols = 4 := h4c
  have hto := Matrix.mulTuple_eq_of_dims im ray.origin himr himc
  have htd := Matrix.mulTuple_eq_of_dims im ray.direction himr himc
  have htr0 : ray.transformed im =
      .ok ⟨(Tuple.new (((List.range 4).map fun c => im.get 0 c * ray.origin.get c).sum)
        (((List.range 4).map fun c => im.get 1 c * ray.origin.get c).sum)
        (((List.range 4).map fun c => im.get 2 c * ray.origin.get c).sum)
        (((List.range 4).map fun c => im.get 3 c * ray.origin.get c).sum)),
        (Tuple.new (((List.range 4).map fun c => im.get 0 c * ray.direction.get c).sum)
        (((List.range 4).map fun c => im.get 1 c * ray.direction.get c).sum)
        (((List.range 4).map fun c => im.get 2 c * ray.direction.get c).sum)
        (((List.range 4).map fun c => im.get 3 c * ray.direction.get c).sum))⟩ := by
    rw [Ray.transformed, hto, bind_ok, htd, bind_ok]
    rfl
  obtain ⟨tr, htr⟩ : ∃ tr, ray.transformed im = .ok tr := ⟨_, htr0⟩
  refine ⟨im, tr, him, htr, ?_⟩
  intro svec a b c disc hsvec ha hb hc hdisc
  have hint : Shape.intersections sqrtF ⟨strans, smat, .sphere⟩ ray =
      .ok (Object.intersectionsImpl sqrtF ⟨strans, smat, .sphere⟩ tr) := by
    rw [Shape.intersections]
    show (strans.inverted >>= fun it => _) = _
    rw [him, bind_ok, htr, bind_ok]
    rfl
  have hanonneg : 0 ≤ a := by
    rw [ha, Tuple.dot]
    have h1 := mul_self_nonneg tr.direction.x
    have h2 := mul_self_nonneg tr.direction.y
    have h3 := mul_self_nonneg tr.direction.z
    have h4 := mul_self_nonneg tr.direction.w
    linarith
  have himpl : Object.intersectionsImpl sqrtF ⟨strans, smat, .sphere⟩ tr =
      if disc < 0 then ([] : List Intersection)
      else [⟨⟨strans, smat, .sphere⟩, (-b - sqrtF disc) / (2 * a)⟩,
        ⟨⟨strans, smat, .sphere⟩, (-b + sqrtF disc) / (2 * a)⟩] := by
    subst hsvec ha hb hc hdisc
    rfl
  constructor
  · intro hlt
    rw [hint, himpl, if_pos hlt]
  · intro hge hs
    refine ⟨by rw [hint, himpl, if_neg (not_lt.mpr hge)], ?_⟩
    rcases eq_or_lt_of_le hanonneg with heq | hpos
    · rw [← heq]
      norm_num
    · rw [div_le_div_iff_of_pos_right (by linarith : 0 < 2 * a)]
      linarith

/-- C4 witness: the unit sphere and the ray from `(0, 0, -5)` along
`(0, 0, 1)` (discriminant 4, `sqrtF 4 = 2`). -/
theorem sphere_intersections_quadratic_witness :
    (Shape.new .sphere).transform.determinant ≠ 0 ∧
    (Shape.new .sphere).transform.nrows = 4 ∧
    (Shape.new .sphere).transform.ncols = 4 ∧
    (∃ im tr, (Shape.new .sphere).transform.inverted = .ok im ∧
      (Ray.mk (Tuple.newPoint 0 0 (-5)) (Tuple.newVector 0 0 1)).transformed im =
        .ok tr ∧
      ∀ svec a b c disc,
        svec = tr.origin.sub ORIGIN →
        a = tr.direction.dot tr.direction →
        b = 2 * tr.direction.dot svec →
        c = svec.dot svec - 1 →
        disc = b * b - 4 * a * c →
        (disc < 0 →
          (Shape.new .sphere).intersections (fun q => if q = 4 then 2 else 0)
            (Ray.mk (Tuple.newPoint 0 0 (-5)) (Tuple.newVector 0 0 1)) = .ok []) ∧
        (0 ≤ disc → (0:ℚ) ≤ (if disc = 4 then 2 else 0) →
          (Shape.new .sphere).intersections (fun q => if q = 4 then 2 else 0)
              (Ray.mk (Tuple.newPoint 0 0 (-5)) (Tuple.newVector 0 0 1)) =
            .ok [⟨Shape.new .sphere,
                (-b - (if disc = 4 then 2 else 0)) / (2 * a)⟩,
              ⟨Shape.new .sphere,
                (-b + (if disc = 4 then 2 else 0)) / (2 * a)⟩] ∧
          (-b - (if disc = 4 then 2 else 0)) / (2 * a) ≤
            (-b + (if disc = 4 then 2 else 0)) / (2 * a))) := by
  have hdet : (Shape.new .sphere).transform.determinant ≠ 0 := by
    show Matrix.identity4.determinant ≠ 0
    rw [Matrix.identity4_det]
    norm_num
  exact ⟨hdet, rfl, rfl,
    sphere_intersections_quadratic (fun q => if q = 4 then 2 else 0) (Shape.new .sphere)
      (Ray.mk (Tuple.newPoint 0 0 (-5)) (Tuple.newVector 0 0 1)) hdet rfl rfl⟩

/-- C5: `hit()` returns an intersection with minimal distance among
those with distance ≥ 0, and `none` when no intersection has nonnegative
distance; over distances `{5, 7, -3, 2}` it returns the entry with
distance 2, and over all-negative distances it returns none. -/
theorem hit_minimal_nonnegative :
    (∀ xs : List Intersection,
      (∀ i, hit xs = some i →
        0 ≤ i.distance ∧ i ∈ xs ∧
          ∀ j ∈ xs, 0 ≤ j.distance → i.distance ≤ j.distance) ∧
      (hit xs = none → ∀ j ∈ xs, j.distance < 0)) ∧
    (hit [⟨Shape.new .sphere, 5⟩, ⟨Shape.new .sphere, 7⟩,
        ⟨Shape.new .sphere, -3⟩, ⟨Shape.new .sphere, 2⟩] =
      some ⟨Shape.new .sphere, 2⟩ ∧
      hit [⟨Shape.new .sphere, -2⟩, ⟨Shape.new .sphere, -1⟩] = none) := by
  constructor
  · intro xs
    constructor
    · intro i hi
      unfold hit at hi
      rcases hflt : xs.filter (fun i => 0 ≤ i.distance) with _ | ⟨x, rest⟩
      · rw [hflt] at hi
        exact absurd hi (by simp)
      · rw [hflt] at hi
        simp only [Option.some.injEq] at hi
        subst hi
        have hmem := foldl_min_mem rest x
        rw [← hflt] at hmem
        have hmem' := List.mem_filter.mp hmem
        refine ⟨by simpa using hmem'.2, hmem'.1, ?_⟩
        intro j hj hj0
        have hjf : j ∈ xs.filter (fun i => 0 ≤ i.distance) :=
          List.mem_filter.mpr ⟨hj, by simpa using hj0⟩
        rw [hflt] at hjf
        exact foldl_min_le rest x j hjf
    · intro hn j hj
      unfold hit at hn
      rcases hflt : xs.filter (fun i => 0 ≤ i.distance) with _ | ⟨x, rest⟩
      · have : j ∉ xs.filter (fun i => 0 ≤ i.distance) := by
          rw [hflt]; simp
        by_contra hcon
        exact this (List.mem_filter.mpr ⟨hj, by simpa using le_of_not_lt hcon⟩)
      · rw [hflt] at hn
        exact absurd hn (by simp)
  · constructor
    · norm_num [hit, List.filter]
    · norm_num [hit, List.filter]

end RT
